import Mathlib

/-!
Shallow embedding of the certificate-issuance slice of the repository:

* `security/pkg/pki/ra` (file `src/unnamed/part_001`): the `KubernetesRA`
  type with `NewKubernetesRA`, `kubernetesSign`, `Sign`, `SignWithCertChain`,
  `GetCAKeyCertBundle`, `SetCACertificatesFromMeshConfig` and
  `GetRootCertFromMeshConfig`.
* `pkg/test/csrctrl/signer/ca_provider.go`: the lazily reloaded CA cache
  (`caProvider.setCA`, `caProvider.currentCA`).

Go byte slices and PEM blobs are modelled as `String`; external helper
functions (`chiron.SignCSRK8s`, `util.FindRootCertFromCertificateChainBytes`,
`util.VerifyCertificate`, `util.NewKeyCertBundleWithRootCertFromFile`,
`preSign`, PEM parsers, file reads) live outside the given sources and are
modelled as oracle fields of an environment record, so every theorem is
quantified over their behaviour.  Go's `(value, error)` returns become
`Except` (or explicit pairs where Go returns a non-nil value next to a
non-nil error, as `caProvider.currentCA` does).  The Go `map[string]string`
`caCertificatesFromMeshConfig` is modelled as an association list with
replace-or-append insertion; list order stands in for Go's (unspecified)
map iteration order.
-/

deriving instance DecidableEq for Except

/-- Go `strings.Split(s, ",")`, written as kernel-computable structural
recursion over the character list (accumulating the current field in
reverse).  Like Go, splitting the empty string yields one empty field. -/
def goSplitCommaAux : List Char → List Char → List String
  | [], acc => [String.mk acc.reverse]
  | c :: rest, acc =>
      if c = ',' then String.mk acc.reverse :: goSplitCommaAux rest []
      else goSplitCommaAux rest (c :: acc)

/-- Go `strings.Split(s, ",")` on a Lean string. -/
def goSplitComma (s : String) : List String :=
  goSplitCommaAux s.data []

/-- Go `strings.Join(parts, ",")`. -/
def goJoinComma : List String → String
  | [] => ""
  | [s] => s
  | s :: rest => s ++ "," ++ goJoinComma rest

/-- Error kinds from `security/pkg/pki/error` used by the RA code. -/
inductive RAErrKind where
  | CAInitFail
  | CertGenError
  deriving DecidableEq, Repr

/-- An error value returned by the RA code: either a typed RA error built
with raerror.NewError, or a plain formatted Go error. -/
inductive RAErr where
  | raError (kind : RAErrKind) (msg : String)
  | goError (msg : String)
  deriving DecidableEq, Repr

/-- The two accessors of `util.KeyCertBundle` that the RA code uses:
`GetRootCertPem` and `GetCertChainPem` (other fields are irrelevant here). -/
structure KeyCertBundle where
  rootCertPem : String
  certChainPem : String
  deriving DecidableEq, Repr

/-- The fields of `IstioRAOptions` read by the Kubernetes RA (the K8s
client handle is an opaque external object and is carried by the oracle
environment instead). -/
structure IstioRAOptions where
  caCertFile : String
  caSigner : String
  certSignerDomain : String
  deriving DecidableEq, Repr

/-- `ca.CertOpts`: options accompanying a CSR. -/
structure CertOpts where
  subjectIDs : List String
  ttl : Nat
  forCA : Bool
  certSigner : String
  deriving DecidableEq, Repr

/-- One `meshconfig.MeshConfig_CertificateData` entry: a PEM blob and its
list of cert signers. -/
structure MeshConfigCertificateData where
  pem : String
  certSigners : List String
  deriving DecidableEq, Repr

/-- Oracle environment for the external collaborators of the RA code.
Each field models one function imported from outside `part_001`:
`util.NewKeyCertBundleWithRootCertFromFile`, `preSign`,
`chiron.SignCSRK8s` (arguments: csrPEM, certSigner, caCertFile,
requestedLifetime), `util.FindRootCertFromCertificateChainBytes`, and
`util.VerifyCertificate` (arguments: cert chain bytes, root cert or nil). -/
structure RAEnv where
  newKeyCertBundleWithRootCertFromFile : String → Except String KeyCertBundle
  preSign : IstioRAOptions → String → List String → Nat → Bool → Except RAErr Unit
  signCSRK8s : String → String → String → Nat → Except String String
  findRootCertFromCertificateChainBytes : String → Except String String
  verifyCertificate : String → Option String → Except String Unit

/-- The `KubernetesRA` struct.  The Go `map[string]string` field
`caCertificatesFromMeshConfig` is an association list of
(joined signer names, PEM). -/
structure KubernetesRA where
  keyCertBundle : KeyCertBundle
  raOpts : IstioRAOptions
  certSignerDomain : String
  caCertificatesFromMeshConfig : List (String × String)
  deriving DecidableEq, Repr

/-- `NewKubernetesRA`: load the key-cert bundle from `raOpts.CaCertFile`;
on failure return a `CAInitFail` RA error, otherwise build the RA with an
empty mesh-config certificate map. -/
def NewKubernetesRA (env : RAEnv) (raOpts : IstioRAOptions) :
    Except RAErr KubernetesRA :=
  match env.newKeyCertBundleWithRootCertFromFile raOpts.caCertFile with
  | .error _ =>
      .error (.raError .CAInitFail
        "error processing Certificate Bundle for Kubernetes RA")
  | .ok keyCertBundle =>
      .ok { keyCertBundle := keyCertBundle
            raOpts := raOpts
            certSignerDomain := raOpts.certSignerDomain
            caCertificatesFromMeshConfig := [] }

/-- `KubernetesRA.kubernetesSign`: reject a named signer when no signer
domain is configured; otherwise compute the effective signer
(domain `/` signer, or the configured `CaSigner` when the request names no
signer) and submit via `chiron.SignCSRK8s`, wrapping its error as
`CertGenError`. -/
def kubernetesSign (r : KubernetesRA) (env : RAEnv) (csrPEM : String)
    (caCertFile : String) (certSigner : String) (requestedLifetime : Nat) :
    Except RAErr String :=
  let certSignerDomain := r.certSignerDomain
  if certSignerDomain = "" ∧ certSigner ≠ "" then
    .error (.raError .CertGenError
      ("certSignerDomain is requiered for signer " ++ certSigner))
  else
    let certSigner :=
      if certSignerDomain ≠ "" ∧ certSigner ≠ "" then
        certSignerDomain ++ "/" ++ certSigner
      else
        r.raOpts.caSigner
    match env.signCSRK8s csrPEM certSigner caCertFile requestedLifetime with
    | .error e => .error (.raError .CertGenError e)
    | .ok certChain => .ok certChain

/-- `KubernetesRA.Sign`: run `preSign` on the options, then
`kubernetesSign` with the request's `CertSigner` and TTL. -/
def Sign (r : KubernetesRA) (env : RAEnv) (csrPEM : String)
    (certOpts : CertOpts) : Except RAErr String :=
  match env.preSign r.raOpts csrPEM certOpts.subjectIDs certOpts.ttl
      certOpts.forCA with
  | .error e => .error e
  | .ok _ =>
      kubernetesSign r env csrPEM r.raOpts.caCertFile certOpts.certSigner
        certOpts.ttl

/-- `KubernetesRA.GetCAKeyCertBundle`. -/
def GetCAKeyCertBundle (r : KubernetesRA) : KeyCertBundle :=
  r.keyCertBundle

/-- Go map assignment `m[k] = v` on the association-list model: replace
the binding when the key is present, otherwise append. -/
def mapStore : List (String × String) → String → String →
    List (String × String)
  | [], k, v => [(k, v)]
  | (k', v') :: rest, k, v =>
      if k' = k then (k, v) :: rest else (k', v') :: mapStore rest k v

/-- The body of the loop in `SetCACertificatesFromMeshConfig`: store one
certificate datum into the map when its signers list is non-empty and its
PEM is non-empty, else leave the map alone. -/
def storeMeshConfigCert (m : List (String × String))
    (pemCert : MeshConfigCertificateData) : List (String × String) :=
  let cert := pemCert.pem
  let certSigners := pemCert.certSigners
  if certSigners.length ≠ 0 then
    let certSigner := goJoinComma certSigners
    if cert ≠ "" then mapStore m certSigner cert else m
  else m

/-- `KubernetesRA.SetCACertificatesFromMeshConfig`: for each certificate
datum with a non-empty signers list and a non-empty PEM, store the PEM
under the comma-joined signer names; skip everything else. -/
def SetCACertificatesFromMeshConfig (r : KubernetesRA)
    (caCertificates : List MeshConfigCertificateData) : KubernetesRA :=
  { r with
    caCertificatesFromMeshConfig :=
      caCertificates.foldl storeMeshConfigCert r.caCertificatesFromMeshConfig }

/-- The entry scan of `GetRootCertFromMeshConfig`: for each stored entry,
split its key on commas and return the PEM of the first entry whose
signer list contains the requested signer. -/
def lookupBySigner : List (String × String) → String → Option String
  | [], _ => none
  | (signers, caCertificate) :: rest, signerName =>
      let signerList := goSplitComma signers
      if signerList.length = 0 then
        lookupBySigner rest signerName
      else if signerName ∈ signerList then
        some caCertificate
      else
        lookupBySigner rest signerName

/-- `KubernetesRA.GetRootCertFromMeshConfig`: error when no certificates
are stored at all; otherwise scan the stored entries and return the PEM
whose comma-separated signer list contains `signerName`, or an error when
none does. -/
def GetRootCertFromMeshConfig (r : KubernetesRA) (signerName : String) :
    Except String String :=
  let caCertificates := r.caCertificatesFromMeshConfig
  if caCertificates.length = 0 then
    .error "no caCertificates defined in mesh config"
  else
    match lookupBySigner caCertificates signerName with
    | some caCertificate => .ok caCertificate
    | none =>
        .error ("failed to find root cert for signer: " ++ signerName ++
          " in mesh config")

/-- The chain concatenation at the top of `SignWithCertChain`: append the
bundle's cert chain PEM to the freshly signed cert when the chain is
non-empty. -/
def signWithChainCert (r : KubernetesRA) (cert0 : String) : String :=
  if (GetCAKeyCertBundle r).certChainPem.length > 0 then
    cert0 ++ (GetCAKeyCertBundle r).certChainPem
  else
    cert0

/-- `KubernetesRA.SignWithCertChain`: sign, append the bundle's chain,
and, when the bundle carries no embedded root, resolve a root: extract one
from the signed chain (fatal on failure), look one up in the mesh config
for `certSignerDomain/CertSigner` (fatal on failure), prefer the
mesh-config root when present, verify it against the chain (fatal on
failure), and append it as the last element of the response. -/
def SignWithCertChain (r : KubernetesRA) (env : RAEnv) (csrPEM : String)
    (certOpts : CertOpts) : Except RAErr (List String) :=
  match Sign r env csrPEM certOpts with
  | .error e => .error e
  | .ok cert1 =>
    let cert := signWithChainCert r cert1
    let respCertChain : List String := [cert]
    let certSigner := r.certSignerDomain ++ "/" ++ certOpts.certSigner
    if (GetCAKeyCertBundle r).rootCertPem.length = 0 then
      match env.findRootCertFromCertificateChainBytes cert with
      | .error e =>
          .error (.goError
            ("failed to find root cert from signed cert-chain (" ++ e ++ ")"))
      | .ok rootCertFromCertChain =>
        match GetRootCertFromMeshConfig r certSigner with
        | .error e =>
            .error (.goError
              ("failed to find root cert from mesh config (" ++ e ++ ")"))
        | .ok fromMeshConfig =>
          let rootCertFromMeshConfig : Option String := some fromMeshConfig
          let rootCert : Option String :=
            if rootCertFromMeshConfig.isSome then rootCertFromMeshConfig
            else if (some rootCertFromCertChain).isSome then
              some rootCertFromCertChain
            else none
          match env.verifyCertificate cert rootCert with
          | .error verifyErr =>
              .error (.goError
                ("root cert from signed cert-chain is invalid " ++ verifyErr
                  ++ " "))
          | .ok _ => .ok (respCertChain ++ [rootCert.getD ""])
    else
      .ok respCertChain

/-- `authority.CertificateAuthority` as stored in the `caProvider` cache:
raw PEM bytes next to the parsed certificate and private key (both
abstract handles here) and the fixed five-minute backdate. -/
structure CertificateAuthority where
  RawCert : String
  RawKey : String
  Certificate : String
  PrivateKey : String
  BackdateMinutes : Nat
  deriving DecidableEq, Repr

/-- Oracle environment for `caProvider`: the current contents of the cert
and key files (or their read errors) and the external parsers
`cert.ParseCertsPEM`, `keyutil.ParsePrivateKeyPEM`, plus the
`crypto.Signer` type assertion. -/
structure SignerEnv where
  certFile : String
  keyFile : String
  certRead : Except String String
  keyRead : Except String String
  parseCertsPEM : String → Except String (List String)
  parsePrivateKeyPEM : String → Except String String
  isCryptoSigner : String → Bool

/-- `caProvider.currentCertContent`: read the cert file, wrapping a read
failure in a message naming the file. -/
def currentCertContent (env : SignerEnv) : Except String String :=
  match env.certRead with
  | .error e =>
      .error ("error reading CA from cert file " ++ env.certFile ++ ": " ++ e)
  | .ok certBytes => .ok certBytes

/-- `caProvider.currentKeyContent`: read the key file, wrapping a read
failure in a message naming the file. -/
def currentKeyContent (env : SignerEnv) : Except String String :=
  match env.keyRead with
  | .error e =>
      .error ("error reading private key from key file " ++ env.keyFile ++
        ": " ++ e)
  | .ok keyBytes => .ok keyBytes

/-- `caProvider.setCA`: read both files, parse the certs (exactly one
required), parse the key (must be a crypto.Signer), and build the
`CertificateAuthority` value that the provider will store.  The Go method
stores into the atomic slot as its last step; the store is modelled by
`currentCAFull` keeping the prior cache whenever this returns an error. -/
def setCA (env : SignerEnv) : Except String CertificateAuthority :=
  match currentCertContent env with
  | .error cerr => .error cerr
  | .ok certPEM =>
  match currentKeyContent env with
  | .error kerr => .error kerr
  | .ok keyPEM =>
  match env.parseCertsPEM certPEM with
  | .error e =>
      .error ("error reading CA cert file " ++ env.certFile ++ ": " ++ e)
  | .ok certs =>
  if certs.length ≠ 1 then
    .error ("error reading CA cert file " ++ env.certFile ++
      ": expected 1 certificate, found " ++ toString certs.length)
  else
  match env.parsePrivateKeyPEM keyPEM with
  | .error e =>
      .error ("error reading CA key file " ++ env.keyFile ++ ": " ++ e)
  | .ok key =>
  if env.isCryptoSigner key then
    .ok { RawCert := certPEM
          RawKey := keyPEM
          Certificate := certs.headD ""
          PrivateKey := key
          BackdateMinutes := 5 }
  else
    .error ("error reading CA key file " ++ env.keyFile ++
      ": key did not implement crypto.Signer")

/-- `caProvider.currentCA`, including the cache slot: given the cached
`CertificateAuthority`, return the pair Go returns (a possibly-nil CA and
a possibly-nil error — Go returns both non-nil when a triggered reload
fails) together with the cache slot's value after the call.  The cached
value is returned untouched when the file bytes equal the cached raw
bytes; otherwise `setCA` runs and its result replaces the slot on
success only. -/
def currentCAFull (env : SignerEnv) (cached : CertificateAuthority) :
    (Option CertificateAuthority × Option String) × CertificateAuthority :=
  match currentCertContent env with
  | .error cerr => ((none, some cerr), cached)
  | .ok certPEM =>
  match currentKeyContent env with
  | .error kerr => ((none, some kerr), cached)
  | .ok keyPEM =>
  if cached.RawCert = certPEM ∧ cached.RawKey = keyPEM then
    ((some cached, none), cached)
  else
    match setCA env with
    | .error e => ((some cached, some e), cached)
    | .ok ca => ((some ca, none), ca)

/-- Association-list lookup, modelling reading `m[k]` from the Go map. -/
def mapLookup : List (String × String) → String → Option String
  | [], _ => none
  | (k', v') :: rest, k => if k' = k then some v' else mapLookup rest k

/-- Concrete oracle environment in which every external collaborator
succeeds: the CSR API signs to `"LEAF"`, chain extraction finds
`"CHAINROOT"`, and verification passes. -/
def envAllOk : RAEnv where
  newKeyCertBundleWithRootCertFromFile := fun _ => .ok ⟨"BUNDLEROOT", ""⟩
  preSign := fun _ _ _ _ _ => .ok ()
  signCSRK8s := fun _ _ _ _ => .ok "LEAF"
  findRootCertFromCertificateChainBytes := fun _ => .ok "CHAINROOT"
  verifyCertificate := fun _ _ => .ok ()

/-- A concrete RA whose CA bundle carries no embedded root and whose
mesh-config certificate map is empty. -/
def raNoRootEmptyMesh : KubernetesRA where
  keyCertBundle := ⟨"", ""⟩
  raOpts := ⟨"ca.pem", "kubernetes.io/legacy-unknown", "example.com"⟩
  certSignerDomain := "example.com"
  caCertificatesFromMeshConfig := []

/-- The same RA with a mesh-config root stored for the effective signer
`example.com/mysigner` (sharing its entry with a second signer). -/
def raWithMeshRoot : KubernetesRA :=
  { raNoRootEmptyMesh with
    caCertificatesFromMeshConfig :=
      [("example.com/mysigner,example.com/othersigner", "MESHROOT")] }

/-- The same RA with a mesh-config entry that matches no requested
signer. -/
def raWithOtherMeshRoot : KubernetesRA :=
  { raNoRootEmptyMesh with
    caCertificatesFromMeshConfig := [("example.com/unrelated", "MESHROOT")] }

/-- Concrete certificate options naming the signer `mysigner`. -/
def optsMySigner : CertOpts where
  subjectIDs := ["spiffe://cluster.local/ns/default/sa/default"]
  ttl := 3600
  forCA := false
  certSigner := "mysigner"

/-- Concrete signer-provider environment in which reads and parses
succeed and the parsed key implements crypto.Signer. -/
def signerEnvOk : SignerEnv where
  certFile := "cert.pem"
  keyFile := "key.pem"
  certRead := .ok "CERTPEM"
  keyRead := .ok "KEYPEM"
  parseCertsPEM := fun s => .ok [s ++ "#parsed"]
  parsePrivateKeyPEM := fun s => .ok (s ++ "#key")
  isCryptoSigner := fun _ => true

/-- The `CertificateAuthority` that `setCA` builds from `signerEnvOk`. -/
def freshCA : CertificateAuthority :=
  ⟨"CERTPEM", "KEYPEM", "CERTPEM#parsed", "KEYPEM#key", 5⟩

/-- A cached `CertificateAuthority` whose raw bytes differ from the
current file contents of `signerEnvOk`. -/
def staleCA : CertificateAuthority :=
  ⟨"OLDCERT", "OLDKEY", "OLDCERT#parsed", "OLDKEY#key", 5⟩

/-- `envAllOk` with a failing certificate verification oracle. -/
def envVerifyFail : RAEnv :=
  { envAllOk with verifyCertificate := fun _ _ => .error "x509: invalid signature" }

/-- `envAllOk` with a failing key-cert-bundle file loader. -/
def envLoadFail : RAEnv :=
  { envAllOk with
    newKeyCertBundleWithRootCertFromFile := fun _ => .error "file not found" }

/-- `raNoRootEmptyMesh` with no configured cert signer domain. -/
def raNoDomain : KubernetesRA :=
  { raNoRootEmptyMesh with certSignerDomain := "" }

/-- `signerEnvOk` with a failing certificate parser, so that a triggered
reload fails after both file reads succeed. -/
def signerEnvParseFail : SignerEnv :=
  { signerEnvOk with parseCertsPEM := fun _ => .error "no certs found" }

/-- A successful entry scan returns the certificate of a stored entry
whose comma-separated signer list contains the requested signer. -/
theorem lookupBySigner_eq_some (m : List (String × String)) (S c : String)
    (h : lookupBySigner m S = some c) :
    ∃ signers, (signers, c) ∈ m ∧ S ∈ goSplitComma signers := by
  induction m with
  | nil => simp [lookupBySigner] at h
  | cons hd tl ih =>
    obtain ⟨signers, cert⟩ := hd
    simp only [lookupBySigner] at h
    by_cases h0 : (goSplitComma signers).length = 0
    · rw [if_pos h0] at h
      obtain ⟨sg, hmem, hS⟩ := ih h
      exact ⟨sg, List.mem_cons_of_mem _ hmem, hS⟩
    · rw [if_neg h0] at h
      by_cases hmem : S ∈ goSplitComma signers
      · rw [if_pos hmem] at h
        injection h with h'
        subst h'
        exact ⟨signers, List.mem_cons_self _ _, hmem⟩
      · rw [if_neg hmem] at h
        obtain ⟨sg, hmem', hS⟩ := ih h
        exact ⟨sg, List.mem_cons_of_mem _ hmem', hS⟩

/-- The entry scan succeeds exactly when some stored entry's
comma-separated signer list contains the requested signer. -/
theorem lookupBySigner_isSome_iff (m : List (String × String)) (S : String) :
    (∃ c, lookupBySigner m S = some c) ↔
      ∃ p ∈ m, S ∈ goSplitComma p.1 := by
  induction m with
  | nil => simp [lookupBySigner]
  | cons hd tl ih =>
    obtain ⟨signers, cert⟩ := hd
    simp only [lookupBySigner]
    by_cases h0 : (goSplitComma signers).length = 0
    · rw [if_pos h0]
      have hempty : goSplitComma signers = [] := List.length_eq_zero.mp h0
      rw [ih]
      constructor
      · rintro ⟨p, hp, hS⟩
        exact ⟨p, List.mem_cons_of_mem _ hp, hS⟩
      · rintro ⟨p, hp, hS⟩
        rcases List.mem_cons.mp hp with rfl | hp'
        · simp [hempty] at hS
        · exact ⟨p, hp', hS⟩
    · rw [if_neg h0]
      by_cases hmem : S ∈ goSplitComma signers
      · rw [if_pos hmem]
        constructor
        · intro _
          exact ⟨(signers, cert), List.mem_cons_self _ _, hmem⟩
        · intro _
          exact ⟨cert, rfl⟩
      · rw [if_neg hmem]
        rw [ih]
        constructor
        · rintro ⟨p, hp, hS⟩
          exact ⟨p, List.mem_cons_of_mem _ hp, hS⟩
        · rintro ⟨p, hp, hS⟩
          rcases List.mem_cons.mp hp with rfl | hp'
          · exact absurd hS hmem
          · exact ⟨p, hp', hS⟩

/-- Entries whose signer lists do not contain the requested signer are
skipped by the entry scan. -/
theorem lookupBySigner_append (m m2 : List (String × String)) (S : String)
    (h : ∀ p ∈ m, S ∉ goSplitComma p.1) :
    lookupBySigner (m ++ m2) S = lookupBySigner m2 S := by
  induction m with
  | nil => rfl
  | cons hd tl ih =>
    obtain ⟨signers, cert⟩ := hd
    have hhd : S ∉ goSplitComma signers := h (signers, cert) (List.mem_cons_self _ _)
    have htl : ∀ p ∈ tl, S ∉ goSplitComma p.1 :=
      fun p hp => h p (List.mem_cons_of_mem _ hp)
    simp only [List.cons_append, lookupBySigner]
    by_cases h0 : (goSplitComma signers).length = 0
    · rw [if_pos h0]
      exact ih htl
    · rw [if_neg h0, if_neg hhd]
      exact ih htl

/-- Storing under key `k` makes `k` map to the stored value. -/
theorem mapLookup_mapStore_self (m : List (String × String)) (k v : String) :
    mapLookup (mapStore m k v) k = some v := by
  induction m with
  | nil => simp [mapStore, mapLookup]
  | cons hd tl ih =>
    obtain ⟨k', v'⟩ := hd
    by_cases hk : k' = k
    · simp [mapStore, mapLookup, hk]
    · simp [mapStore, mapLookup, hk, ih]

/-- Storing under key `k` leaves every other key's binding unchanged. -/
theorem mapLookup_mapStore_other (m : List (String × String))
    (k v k' : String) (h : k' ≠ k) :
    mapLookup (mapStore m k v) k' = mapLookup m k' := by
  induction m with
  | nil => simp [mapStore, mapLookup, Ne.symm h]
  | cons hd tl ih =>
    obtain ⟨k0, v0⟩ := hd
    by_cases hk : k0 = k
    · subst hk
      simp [mapStore, mapLookup, Ne.symm h]
    · simp only [mapStore, if_neg hk, mapLookup]
      by_cases hk' : k0 = k'
      · simp [hk']
      · simp [hk', ih]

/-- Storing a fresh key appends the binding at the end of the list. -/
theorem mapStore_of_forall_ne (m : List (String × String)) (k v : String)
    (h : ∀ p ∈ m, p.1 ≠ k) :
    mapStore m k v = m ++ [(k, v)] := by
  induction m with
  | nil => rfl
  | cons hd tl ih =>
    obtain ⟨k0, v0⟩ := hd
    have hk0 : k0 ≠ k := h (k0, v0) (List.mem_cons_self _ _)
    simp only [mapStore, if_neg hk0, List.cons_append, List.cons.injEq, true_and]
    exact ih fun p hp => h p (List.mem_cons_of_mem _ hp)

/-- Re-storing a key that sits (only) at the end of the list replaces
its value in place. -/
theorem mapStore_append_self (m : List (String × String)) (k v1 v2 : String)
    (h : ∀ p ∈ m, p.1 ≠ k) :
    mapStore (m ++ [(k, v1)]) k v2 = m ++ [(k, v2)] := by
  induction m with
  | nil => simp [mapStore]
  | cons hd tl ih =>
    obtain ⟨k0, v0⟩ := hd
    have hk0 : k0 ≠ k := h (k0, v0) (List.mem_cons_self _ _)
    simp only [List.cons_append, mapStore, if_neg hk0, List.cons.injEq, true_and]
    exact ih fun p hp => h p (List.mem_cons_of_mem _ hp)

/-- A certificate datum with a non-empty signers list and a non-empty
PEM is stored under the comma-joined signer names. -/
theorem storeMeshConfigCert_store (m : List (String × String))
    (d : MeshConfigCertificateData) (hL : d.certSigners ≠ [])
    (hc : d.pem ≠ "") :
    storeMeshConfigCert m d = mapStore m (goJoinComma d.certSigners) d.pem := by
  have hlen : d.certSigners.length ≠ 0 :=
    fun h => hL (List.length_eq_zero.mp h)
  simp [storeMeshConfigCert, hlen, hc]

/-- `mapStore` keeps all values non-empty when the stored value is. -/
theorem mapStore_values_ne (m : List (String × String)) (k v : String)
    (hm : ∀ p ∈ m, p.2 ≠ "") (hv : v ≠ "") :
    ∀ p ∈ mapStore m k v, p.2 ≠ "" := by
  induction m with
  | nil =>
    intro p hp
    simp only [mapStore, List.mem_singleton] at hp
    subst hp
    exact hv
  | cons hd tl ih =>
    obtain ⟨k0, v0⟩ := hd
    intro p hp
    by_cases hk : k0 = k
    · simp only [mapStore, if_pos hk] at hp
      rcases List.mem_cons.mp hp with rfl | hp'
      · exact hv
      · exact hm p (List.mem_cons_of_mem _ hp')
    · simp only [mapStore, if_neg hk] at hp
      rcases List.mem_cons.mp hp with rfl | hp'
      · exact hm (k0, v0) (List.mem_cons_self _ _)
      · exact ih (fun q hq => hm q (List.mem_cons_of_mem _ hq)) p hp'

/-- One step of `SetCACertificatesFromMeshConfig` keeps all stored
values non-empty, because an empty PEM is never stored. -/
theorem storeMeshConfigCert_values_ne (m : List (String × String))
    (d : MeshConfigCertificateData) (hm : ∀ p ∈ m, p.2 ≠ "") :
    ∀ p ∈ storeMeshConfigCert m d, p.2 ≠ "" := by
  unfold storeMeshConfigCert
  by_cases hlen : d.certSigners.length ≠ 0
  · by_cases hc : d.pem ≠ ""
    · simpa [hlen, hc] using mapStore_values_ne m (goJoinComma d.certSigners) d.pem hm hc
    · simpa [hlen, hc] using hm
  · simpa [hlen] using hm

/-- The whole fold of `SetCACertificatesFromMeshConfig` keeps all stored
values non-empty. -/
theorem foldl_store_values_ne (certs : List MeshConfigCertificateData)
    (m : List (String × String)) (hm : ∀ p ∈ m, p.2 ≠ "") :
    ∀ p ∈ List.foldl storeMeshConfigCert m certs, p.2 ≠ "" := by
  induction certs generalizing m with
  | nil => simpa using hm
  | cons d rest ih =>
    simpa [List.foldl_cons] using ih _ (storeMeshConfigCert_values_ne m d hm)

/-- A successful `setCA` stores exactly the bytes read from the cert and
key files as the raw cert and raw key. -/
theorem setCA_ok_raw (env : SignerEnv) (ca : CertificateAuthority)
    (h : setCA env = .ok ca) :
    env.certRead = .ok ca.RawCert ∧ env.keyRead = .ok ca.RawKey := by
  rcases hc : env.certRead with ce | certPEM
  · simp [setCA, currentCertContent, hc] at h
  rcases hk : env.keyRead with ke | keyPEM
  · simp [setCA, currentCertContent, currentKeyContent, hc, hk] at h
  rcases hp : env.parseCertsPEM certPEM with pe | certs
  · simp [setCA, currentCertContent, currentKeyContent, hc, hk, hp] at h
  simp only [setCA, currentCertContent, currentKeyContent, hc, hk, hp] at h
  by_cases hlen : certs.length ≠ 1
  · rw [if_pos hlen] at h
    simp at h
  rw [if_neg hlen] at h
  rcases hq : env.parsePrivateKeyPEM keyPEM with qe | key
  · simp only [hq] at h
    simp at h
  simp only [hq] at h
  by_cases hs : env.isCryptoSigner key = true
  · rw [if_pos hs] at h
    injection h with h'
    subst h'
    refine ⟨?_, ?_⟩ <;> simp [hc, hk]
  · rw [if_neg hs] at h
    simp at h

/-- C1 (counterexample): the claim predicts that when the CA bundle has no
embedded root and the mesh config supplies no root for the requested
signer, `SignWithCertChain` still succeeds with the root extracted from
the signed chain appended.  At this concrete input (empty mesh-config map,
signing and chain-extraction oracles succeeding with `"LEAF"` and
`"CHAINROOT"`), the call instead returns an error and in particular does
not return the predicted chain. -/
theorem signWithCertChain_chain_fallback_counterexample :
    SignWithCertChain raNoRootEmptyMesh envAllOk "CSRPEM" optsMySigner =
      .error (.goError
        "failed to find root cert from mesh config (no caCertificates defined in mesh config)") ∧
    SignWithCertChain raNoRootEmptyMesh envAllOk "CSRPEM" optsMySigner ≠
      .ok ["LEAF", "CHAINROOT"] := by
  refine ⟨?_, ?_⟩ <;> decide

/-- C1 (amended): when the CA bundle carries no embedded root and the
signing, chain-extraction, mesh-config-lookup and verification steps all
succeed, `SignWithCertChain` succeeds and appends the mesh-config root —
never the chain-extracted one — as the last element of the returned
chain. -/
theorem signWithCertChain_mesh_root_appended (r : KubernetesRA)
    (env : RAEnv) (csrPEM : String) (certOpts : CertOpts)
    (cert1 rootCC rootMC : String)
    (hroot : (GetCAKeyCertBundle r).rootCertPem = "")
    (hsign : Sign r env csrPEM certOpts = .ok cert1)
    (hfind : env.findRootCertFromCertificateChainBytes
      (signWithChainCert r cert1) = .ok rootCC)
    (hmesh : GetRootCertFromMeshConfig r
      (r.certSignerDomain ++ "/" ++ certOpts.certSigner) = .ok rootMC)
    (hverify : env.verifyCertificate (signWithChainCert r cert1)
      (some rootMC) = .ok ()) :
    SignWithCertChain r env csrPEM certOpts =
      .ok [signWithChainCert r cert1, rootMC] := by
  simp [SignWithCertChain, hsign, hroot, hfind, hmesh, hverify]

/-- C1 (witness): at a concrete RA whose mesh config stores `"MESHROOT"`
for the effective signer, the returned chain is the signed cert followed
by the mesh-config root. -/
theorem signWithCertChain_mesh_root_appended_witness :
    SignWithCertChain raWithMeshRoot envAllOk "CSRPEM" optsMySigner =
      .ok ["LEAF", "MESHROOT"] :=
  signWithCertChain_mesh_root_appended raWithMeshRoot envAllOk "CSRPEM"
    optsMySigner "LEAF" "CHAINROOT" "MESHROOT" (by decide) (by decide)
    (by decide) (by decide) (by decide)

/-- C3 (counterexample): the claim predicts that a failed mesh-config
root lookup during `SignWithCertChain` is non-fatal and the call still
returns a chain.  At this concrete input (the stored mesh-config entry
matches a different signer, every oracle succeeds) the call returns an
error instead of any chain. -/
theorem signWithCertChain_root_not_found_counterexample :
    SignWithCertChain raWithOtherMeshRoot envAllOk "CSRPEM" optsMySigner =
      .error (.goError
        "failed to find root cert from mesh config (failed to find root cert for signer: example.com/mysigner in mesh config)") := by
  decide

/-- C3 (amended): when the CA bundle carries no embedded root and
`GetRootCertFromMeshConfig` fails for the requested signer,
`SignWithCertChain` is fatal: it returns an error wrapping the lookup
failure instead of proceeding with best-effort root material. -/
theorem signWithCertChain_mesh_lookup_failure_fatal (r : KubernetesRA)
    (env : RAEnv) (csrPEM : String) (certOpts : CertOpts)
    (cert1 rootCC e : String)
    (hroot : (GetCAKeyCertBundle r).rootCertPem = "")
    (hsign : Sign r env csrPEM certOpts = .ok cert1)
    (hfind : env.findRootCertFromCertificateChainBytes
      (signWithChainCert r cert1) = .ok rootCC)
    (hmesh : GetRootCertFromMeshConfig r
      (r.certSignerDomain ++ "/" ++ certOpts.certSigner) = .error e) :
    SignWithCertChain r env csrPEM certOpts =
      .error (.goError
        ("failed to find root cert from mesh config (" ++ e ++ ")")) := by
  simp [SignWithCertChain, hsign, hroot, hfind, hmesh]

/-- C3 (witness): at a concrete RA with an empty mesh-config map the
lookup failure is propagated as an error by `SignWithCertChain`. -/
theorem signWithCertChain_mesh_lookup_failure_fatal_witness :
    SignWithCertChain raNoRootEmptyMesh envAllOk "CSRPEM2" optsMySigner =
      .error (.goError
        ("failed to find root cert from mesh config (" ++
          "no caCertificates defined in mesh config" ++ ")")) :=
  signWithCertChain_mesh_lookup_failure_fatal raNoRootEmptyMesh envAllOk
    "CSRPEM2" optsMySigner "LEAF" "CHAINROOT"
    "no caCertificates defined in mesh config" (by decide) (by decide)
    (by decide) (by decide)

/-- C6: when the CA bundle carries no embedded root and a root has been
chosen (the mesh-config root, given both resolution steps succeeded),
`SignWithCertChain` fails whenever verification of the chosen root
against the signed chain fails, and conversely any successfully returned
chain passed that verification. -/
theorem signWithCertChain_verify_gate (r : KubernetesRA) (env : RAEnv)
    (csrPEM : String) (certOpts : CertOpts) (cert1 rootCC rootMC : String)
    (hroot : (GetCAKeyCertBundle r).rootCertPem = "")
    (hsign : Sign r env csrPEM certOpts = .ok cert1)
    (hfind : env.findRootCertFromCertificateChainBytes
      (signWithChainCert r cert1) = .ok rootCC)
    (hmesh : GetRootCertFromMeshConfig r
      (r.certSignerDomain ++ "/" ++ certOpts.certSigner) = .ok rootMC) :
    (∀ e, env.verifyCertificate (signWithChainCert r cert1) (some rootMC) =
        .error e →
      SignWithCertChain r env csrPEM certOpts =
        .error (.goError
          ("root cert from signed cert-chain is invalid " ++ e ++ " "))) ∧
    (∀ chain, SignWithCertChain r env csrPEM certOpts = .ok chain →
      env.verifyCertificate (signWithChainCert r cert1) (some rootMC) =
        .ok ()) := by
  constructor
  · intro e hverify
    simp [SignWithCertChain, hsign, hroot, hfind, hmesh, hverify]
  · intro chain hok
    rcases hv : env.verifyCertificate (signWithChainCert r cert1)
        (some rootMC) with ve | u
    · simp [SignWithCertChain, hsign, hroot, hfind, hmesh, hv] at hok
    · cases u
      simp [hv]

/-- C6 (witness): with a failing verification oracle the concrete call
returns the verification error and no chain. -/
theorem signWithCertChain_verify_gate_witness :
    SignWithCertChain raWithMeshRoot envVerifyFail "CSRPEM" optsMySigner =
      .error (.goError
        ("root cert from signed cert-chain is invalid " ++
          "x509: invalid signature" ++ " ")) :=
  (signWithCertChain_verify_gate raWithMeshRoot envVerifyFail "CSRPEM"
    optsMySigner "LEAF" "CHAINROOT" "MESHROOT" (by decide) (by decide)
    (by decide) (by decide)).1 "x509: invalid signature" (by decide)

/-- A successful `GetRootCertFromMeshConfig` returns the PEM of a stored
entry whose comma-separated signer list contains the requested signer. -/
theorem getRootCert_ok_mem (r : KubernetesRA) (S c : String)
    (hc : GetRootCertFromMeshConfig r S = .ok c) :
    ∃ signers, (signers, c) ∈ r.caCertificatesFromMeshConfig ∧
      S ∈ goSplitComma signers := by
  unfold GetRootCertFromMeshConfig at hc
  by_cases hlen : r.caCertificatesFromMeshConfig.length = 0
  · rw [if_pos hlen] at hc
    cases hc
  · rw [if_neg hlen] at hc
    rcases hl : lookupBySigner r.caCertificatesFromMeshConfig S with _ | c'
    · simp [hl] at hc
    · simp only [hl] at hc
      injection hc with h'
      subst h'
      exact lookupBySigner_eq_some _ _ _ hl

/-- C2: `GetRootCertFromMeshConfig S` succeeds exactly when some stored
entry's comma-separated signer list contains `S` as an exact element
(so it fails with the root-not-found error otherwise, including for an
entry stored under a joined list such as "signerX,signerY" when `S` is
one of its elements), and any returned PEM is the PEM stored for such an
entry. -/
theorem getRootCertFromMeshConfig_signer_lookup (r : KubernetesRA)
    (S : String) :
    ((∃ c, GetRootCertFromMeshConfig r S = .ok c) ↔
      ∃ p ∈ r.caCertificatesFromMeshConfig, S ∈ goSplitComma p.1) ∧
    (∀ c, GetRootCertFromMeshConfig r S = .ok c →
      ∃ signers, (signers, c) ∈ r.caCertificatesFromMeshConfig ∧
        S ∈ goSplitComma signers) := by
  unfold GetRootCertFromMeshConfig
  by_cases hlen : r.caCertificatesFromMeshConfig.length = 0
  · have hm : r.caCertificatesFromMeshConfig = [] :=
      List.length_eq_zero.mp hlen
    rw [if_pos hlen]
    constructor
    · simp [hm]
    · simp
  · rw [if_neg hlen]
    constructor
    · rw [← lookupBySigner_isSome_iff]
      constructor
      · rintro ⟨c, hc⟩
        rcases hl : lookupBySigner r.caCertificatesFromMeshConfig S
          with _ | c'
        · simp [hl] at hc
        · exact ⟨c', rfl⟩
      · rintro ⟨c, hc⟩
        exact ⟨c, by simp [hc]⟩
    · intro c hc
      exact getRootCert_ok_mem r S c (by simpa [GetRootCertFromMeshConfig, hlen] using hc)

/-- C2 (witness): the entry stored under the joined list
"example.com/mysigner,example.com/othersigner" is found when looking up
its second signer alone. -/
theorem getRootCertFromMeshConfig_signer_lookup_witness :
    ∃ c, GetRootCertFromMeshConfig raWithMeshRoot "example.com/othersigner" =
      .ok c :=
  (getRootCertFromMeshConfig_signer_lookup raWithMeshRoot
      "example.com/othersigner").1.mpr
    ⟨("example.com/mysigner,example.com/othersigner", "MESHROOT"),
      by decide, by decide⟩

/-- C7: storing a certificate `c2` for a signer list after an earlier
call stored `c1` for the identical signer list replaces the stored entry:
a subsequent `GetRootCertFromMeshConfig` for a signer of that list (when
no pre-existing entry also matches that signer) returns `c2`, and every
binding stored under a different joined signer list is unaffected. -/
theorem setCACertificates_same_signer_list_replaces (r : KubernetesRA)
    (L : List String) (c1 c2 S : String)
    (hL : L ≠ []) (hc1 : c1 ≠ "") (hc2 : c2 ≠ "")
    (hS : S ∈ goSplitComma (goJoinComma L))
    (hclean : ∀ p ∈ r.caCertificatesFromMeshConfig,
      S ∉ goSplitComma p.1) :
    GetRootCertFromMeshConfig
        (SetCACertificatesFromMeshConfig
          (SetCACertificatesFromMeshConfig r [⟨c1, L⟩]) [⟨c2, L⟩]) S =
      .ok c2 ∧
    ∀ K, K ≠ goJoinComma L →
      mapLookup (SetCACertificatesFromMeshConfig
          (SetCACertificatesFromMeshConfig r [⟨c1, L⟩])
          [⟨c2, L⟩]).caCertificatesFromMeshConfig K =
        mapLookup r.caCertificatesFromMeshConfig K := by
  set m := r.caCertificatesFromMeshConfig with hmdef
  have hkey : ∀ p ∈ m, p.1 ≠ goJoinComma L := by
    intro p hp heq
    exact hclean p hp (heq ▸ hS)
  have hstep2 : (SetCACertificatesFromMeshConfig
      (SetCACertificatesFromMeshConfig r [⟨c1, L⟩])
      [⟨c2, L⟩]).caCertificatesFromMeshConfig =
      mapStore (mapStore m (goJoinComma L) c1) (goJoinComma L) c2 := by
    simp [SetCACertificatesFromMeshConfig,
      storeMeshConfigCert_store _ ⟨c1, L⟩ hL hc1,
      storeMeshConfigCert_store _ ⟨c2, L⟩ hL hc2]
  have hfinal : mapStore (mapStore m (goJoinComma L) c1)
      (goJoinComma L) c2 = m ++ [(goJoinComma L, c2)] := by
    rw [mapStore_of_forall_ne m _ c1 hkey]
    exact mapStore_append_self m _ c1 c2 hkey
  constructor
  · unfold GetRootCertFromMeshConfig
    rw [hstep2, hfinal]
    have hlen : (m ++ [(goJoinComma L, c2)]).length ≠ 0 := by
      simp
    rw [if_neg hlen]
    have hlook : lookupBySigner (m ++ [(goJoinComma L, c2)]) S =
        some c2 := by
      rw [lookupBySigner_append m _ S hclean]
      have hnz : (goSplitComma (goJoinComma L)).length ≠ 0 :=
        fun h => by simp [List.length_eq_zero.mp h] at hS
      simp [lookupBySigner, hnz, hS]
    simp [hlook]
  · intro K hK
    rw [hstep2]
    rw [mapLookup_mapStore_other _ _ _ _ hK,
      mapLookup_mapStore_other _ _ _ _ hK]

/-- C7 (witness): storing "PEMA" then "PEMB" under the signer list
["signerX", "signerY"] on an RA with an empty map makes the lookup of
"signerX" return "PEMB". -/
theorem setCACertificates_same_signer_list_replaces_witness :
    GetRootCertFromMeshConfig
        (SetCACertificatesFromMeshConfig
          (SetCACertificatesFromMeshConfig raNoRootEmptyMesh
            [⟨"PEMA", ["signerX", "signerY"]⟩])
          [⟨"PEMB", ["signerX", "signerY"]⟩]) "signerX" =
      .ok "PEMB" :=
  (setCACertificates_same_signer_list_replaces raNoRootEmptyMesh
    ["signerX", "signerY"] "PEMA" "PEMB" "signerX" (by decide) (by decide)
    (by decide) (by decide) (by decide)).1

/-- C10 (counterexample): the claim asserts that the stored map only ever
contains non-empty certificates under non-empty signer keys.  A
mesh-config entry whose signers list is the non-empty list [""] is not
skipped (only an empty list is), so its PEM is stored under the empty
joined key "". -/
theorem setCACertificates_empty_signer_key_counterexample :
    (SetCACertificatesFromMeshConfig raNoRootEmptyMesh
        [⟨"SOMEPEM", [""]⟩]).caCertificatesFromMeshConfig =
      [("", "SOMEPEM")] := by
  decide

/-- C10 (amended): every stored certificate value is non-empty (an empty
PEM or an empty signers list is skipped by
`SetCACertificatesFromMeshConfig`, though the joined signer key itself
may be the empty string), and under that invariant a successful
`GetRootCertFromMeshConfig` never returns an empty PEM. -/
theorem getRootCertFromMeshConfig_nonempty_on_success (r : KubernetesRA)
    (S c : String) (certs : List MeshConfigCertificateData)
    (p : String × String)
    (hinv : ∀ q ∈ r.caCertificatesFromMeshConfig, q.2 ≠ "") :
    (p ∈ (SetCACertificatesFromMeshConfig r
        certs).caCertificatesFromMeshConfig → p.2 ≠ "") ∧
    (GetRootCertFromMeshConfig r S = .ok c → c ≠ "") := by
  constructor
  · intro hp
    exact foldl_store_values_ne certs r.caCertificatesFromMeshConfig hinv
      p hp
  · intro hc
    obtain ⟨signers, hmem, _⟩ := getRootCert_ok_mem r S c hc
    exact hinv (signers, c) hmem

/-- C10 (witness): concrete instance — the pair ("sx", "PEMX") stored by
a concrete update has a non-empty PEM, and the successful concrete lookup
returns the non-empty "MESHROOT". -/
theorem getRootCertFromMeshConfig_nonempty_on_success_witness :
    (("sx", "PEMX") ∈ (SetCACertificatesFromMeshConfig raWithMeshRoot
        [⟨"PEMX", ["sx"]⟩]).caCertificatesFromMeshConfig →
      ("sx", "PEMX").2 ≠ "") ∧
    (GetRootCertFromMeshConfig raWithMeshRoot "example.com/mysigner" =
        .ok "MESHROOT" → "MESHROOT" ≠ "") :=
  getRootCertFromMeshConfig_nonempty_on_success raWithMeshRoot
    "example.com/mysigner" "MESHROOT" [⟨"PEMX", ["sx"]⟩] ("sx", "PEMX")
    (by decide)

/-- C8: `NewKubernetesRA` fails with a `CAInitFail` error (and no RA)
whenever processing the CA cert file into a key-cert bundle fails, and
on success constructs an RA whose `GetCAKeyCertBundle` is exactly the
loaded bundle. -/
theorem newKubernetesRA_bundle_load (env : RAEnv)
    (raOpts : IstioRAOptions) :
    (∀ e, env.newKeyCertBundleWithRootCertFromFile raOpts.caCertFile =
        .error e →
      NewKubernetesRA env raOpts =
        .error (.raError .CAInitFail
          "error processing Certificate Bundle for Kubernetes RA")) ∧
    (∀ b, env.newKeyCertBundleWithRootCertFromFile raOpts.caCertFile =
        .ok b →
      ∃ ra, NewKubernetesRA env raOpts = .ok ra ∧
        GetCAKeyCertBundle ra = b) := by
  constructor
  · intro e he
    simp [NewKubernetesRA, he]
  · intro b hb
    refine ⟨⟨b, raOpts, raOpts.certSignerDomain, []⟩, ?_, rfl⟩
    simp [NewKubernetesRA, hb]

/-- C8 (witness): a failing loader yields the `CAInitFail` error, a
succeeding loader yields an RA holding the loaded bundle. -/
theorem newKubernetesRA_bundle_load_witness :
    NewKubernetesRA envLoadFail raNoRootEmptyMesh.raOpts =
      .error (.raError .CAInitFail
        "error processing Certificate Bundle for Kubernetes RA") ∧
    ∃ ra, NewKubernetesRA envAllOk raNoRootEmptyMesh.raOpts = .ok ra ∧
      GetCAKeyCertBundle ra = ⟨"BUNDLEROOT", ""⟩ :=
  ⟨(newKubernetesRA_bundle_load envLoadFail raNoRootEmptyMesh.raOpts).1
      "file not found" (by decide),
    (newKubernetesRA_bundle_load envAllOk raNoRootEmptyMesh.raOpts).2
      ⟨"BUNDLEROOT", ""⟩ (by decide)⟩

/-- C9: with `preSign` succeeding, a `Sign` call with a non-empty
requested `CertSigner` but an empty configured `certSignerDomain` fails
with a `CertGenError` whose result is independent of the CSR API oracle
(the environment is universally quantified and never consulted); when
both are non-empty the CSR API is invoked with the effective signer
`certSignerDomain/CertSigner`, and when `CertSigner` is empty it is
invoked with the configured `CaSigner`. -/
theorem sign_cert_signer_domain_dispatch (r : KubernetesRA) (env : RAEnv)
    (csrPEM : String) (certOpts : CertOpts)
    (hpre : env.preSign r.raOpts csrPEM certOpts.subjectIDs certOpts.ttl
      certOpts.forCA = .ok ()) :
    (r.certSignerDomain = "" → certOpts.certSigner ≠ "" →
      Sign r env csrPEM certOpts =
        .error (.raError .CertGenError
          ("certSignerDomain is requiered for signer " ++
            certOpts.certSigner))) ∧
    (r.certSignerDomain ≠ "" → certOpts.certSigner ≠ "" →
      Sign r env csrPEM certOpts =
        match env.signCSRK8s csrPEM
            (r.certSignerDomain ++ "/" ++ certOpts.certSigner)
            r.raOpts.caCertFile certOpts.ttl with
        | .error e => .error (.raError .CertGenError e)
        | .ok certChain => .ok certChain) ∧
    (certOpts.certSigner = "" →
      Sign r env csrPEM certOpts =
        match env.signCSRK8s csrPEM r.raOpts.caSigner r.raOpts.caCertFile
            certOpts.ttl with
        | .error e => .error (.raError .CertGenError e)
        | .ok certChain => .ok certChain) := by
  refine ⟨?_, ?_, ?_⟩
  · intro hdom hsigner
    simp [Sign, hpre, kubernetesSign, hdom, hsigner]
  · intro hdom hsigner
    simp [Sign, hpre, kubernetesSign, hdom, hsigner]
  · intro hsigner
    simp [Sign, hpre, kubernetesSign, hsigner]

/-- C9 (witness): with an empty configured signer domain and the signer
"mysigner" requested, the concrete call fails with the `CertGenError`. -/
theorem sign_cert_signer_domain_dispatch_witness :
    Sign raNoDomain envAllOk "CSRPEM" optsMySigner =
      .error (.raError .CertGenError
        ("certSignerDomain is requiered for signer " ++ "mysigner")) :=
  (sign_cert_signer_domain_dispatch raNoDomain envAllOk "CSRPEM"
    optsMySigner (by decide)).1 (by decide) (by decide)

/-- C4: with both file reads succeeding, `currentCA` returns exactly the
cached `CertificateAuthority` (and leaves the slot untouched) when the
read bytes are byte-equal to the cached RawCert and RawKey, and otherwise
reloads: a successful reload returns and stores a CA whose RawCert and
RawKey are exactly the new file contents.  Staleness in the model is
decided only by this byte comparison — no modification time exists in
the state at all. -/
theorem currentCA_byte_compare (env : SignerEnv)
    (cached : CertificateAuthority) (certPEM keyPEM : String)
    (hc : env.certRead = .ok certPEM) (hk : env.keyRead = .ok keyPEM) :
    ((cached.RawCert = certPEM ∧ cached.RawKey = keyPEM) →
      currentCAFull env cached = ((some cached, none), cached)) ∧
    (∀ ca, ¬(cached.RawCert = certPEM ∧ cached.RawKey = keyPEM) →
      setCA env = .ok ca →
      currentCAFull env cached = ((some ca, none), ca) ∧
        ca.RawCert = certPEM ∧ ca.RawKey = keyPEM) := by
  constructor
  · intro heq
    simp [currentCAFull, currentCertContent, currentKeyContent, hc, hk, heq]
  · intro ca hne hset
    obtain ⟨hr1, hr2⟩ := setCA_ok_raw env ca hset
    rw [hc] at hr1
    rw [hk] at hr2
    injection hr1 with hr1
    injection hr2 with hr2
    refine ⟨?_, hr1.symm, hr2.symm⟩
    simp [currentCAFull, currentCertContent, currentKeyContent, hc, hk,
      hne, hset]

/-- C4 (witness): a stale cache is replaced by the CA built from the
current file contents. -/
theorem currentCA_byte_compare_witness :
    currentCAFull signerEnvOk staleCA = ((some freshCA, none), freshCA) :=
  ((currentCA_byte_compare signerEnvOk staleCA "CERTPEM" "KEYPEM"
    (by decide) (by decide)).2 freshCA (by decide) (by decide)).1

/-- C5: a failing reload leaves the cached slot unchanged — whatever step
of `setCA` failed — and a `currentCA` call that triggered that failing
reload (reads succeeded but bytes differed) returns the prior cached
value together with the error. -/
theorem currentCA_reload_failure_preserves_cache (env : SignerEnv)
    (cached : CertificateAuthority) (e : String)
    (hset : setCA env = .error e) :
    (currentCAFull env cached).2 = cached ∧
    (∀ certPEM keyPEM, env.certRead = .ok certPEM →
      env.keyRead = .ok keyPEM →
      ¬(cached.RawCert = certPEM ∧ cached.RawKey = keyPEM) →
      currentCAFull env cached = ((some cached, some e), cached)) := by
  constructor
  · rcases hc : env.certRead with ce | certPEM
    · simp [currentCAFull, currentCertContent, hc]
    rcases hk : env.keyRead with ke | keyPEM
    · simp [currentCAFull, currentCertContent, currentKeyContent, hc, hk]
    by_cases heq : cached.RawCert = certPEM ∧ cached.RawKey = keyPEM
    · simp [currentCAFull, currentCertContent, currentKeyContent, hc, hk,
        heq]
    · simp [currentCAFull, currentCertContent, currentKeyContent, hc, hk,
        heq, hset]
  · intro certPEM keyPEM hc hk hne
    simp [currentCAFull, currentCertContent, currentKeyContent, hc, hk,
      hne, hset]

/-- C5 (witness): with a failing certificate parser the concrete reload
fails, the prior cached value is returned next to the error, and the
slot still holds the prior value. -/
theorem currentCA_reload_failure_preserves_cache_witness :
    currentCAFull signerEnvParseFail staleCA =
      ((some staleCA,
        some "error reading CA cert file cert.pem: no certs found"),
        staleCA) :=
  (currentCA_reload_failure_preserves_cache signerEnvParseFail staleCA
    "error reading CA cert file cert.pem: no certs found" (by decide)).2
    "CERTPEM" "KEYPEM" (by decide) (by decide) (by decide)
